import Mathlib

/-!
Shallow embedding of `src/setup_structure.py`: a script that creates a fixed
list of directories under a hardcoded base directory using
`os.makedirs(path, exist_ok=True)`, printing one confirmation line per entry
and a final summary message.

The filesystem is modelled as two lists of paths (directories and regular
files), a path being the list of its slash-separated segments.
`os.path.join` is modelled POSIX-style (joining with one slash), and the OS
interprets a path string by splitting it on slashes.
`os.makedirs p (exist_ok := True)` walks the nonempty segment prefixes of
`p` in order: an existing directory is skipped (idempotent creation), an
existing regular file aborts with a filesystem error, and a missing segment
is created as a directory.
-/

namespace SetupStructure

/-- A filesystem path, as the list of its segments. -/
abbrev FsPath := List String

/-- How the OS decomposes a slash-delimited path string into segments:
split the character list on every slash character. -/
def splitChars : List Char → List (List Char)
  | [] => [[]]
  | c :: cs =>
    match splitChars cs with
    | [] => [[]]
    | seg :: segs =>
      if c = '/' then [] :: seg :: segs else (c :: seg) :: segs

/-- Segments of a path string. -/
def segsOf (s : String) : FsPath := (splitChars s.data).map String.mk

/-- The filesystem state: which paths exist as directories and which as
regular files. -/
structure FS where
  dirs : List FsPath
  files : List FsPath
deriving DecidableEq

/-- The empty filesystem. -/
def FS.empty : FS := ⟨[], []⟩

/-- Does `p` exist as a directory? -/
def FS.isDir (fs : FS) (p : FsPath) : Bool := fs.dirs.contains p

/-- Does `p` exist as a regular file? -/
def FS.isFile (fs : FS) (p : FsPath) : Bool := fs.files.contains p

/-- Create directory `p` (the underlying `mkdir` effect). -/
def FS.addDir (fs : FS) (p : FsPath) : FS := ⟨p :: fs.dirs, fs.files⟩

/-- The one error class of the script: the filesystem rejects a creation
request because a non-directory entry occupies a path. -/
inductive FsError
  | conflict (p : FsPath)
deriving DecidableEq

/-- Ensure `p` is a directory when no conflicting file occupies it: an
existing directory is left in place, a missing one is created. -/
def FS.ensureDir (fs : FS) (p : FsPath) : FS :=
  if fs.isDir p then fs else fs.addDir p

/-- Walk the remaining segments of a path whose processed ancestor is
`done`: skip existing directories, fail on a regular file, create missing
directories.  This is `os.makedirs(path, exist_ok=True)` semantics. -/
def mkdirsAux (fs : FS) (done : FsPath) : List String → FS × Option FsError
  | [] => (fs, none)
  | s :: rest =>
    let cur := done ++ [s]
    if fs.isFile cur then (fs, some (.conflict cur))
    else mkdirsAux (fs.ensureDir cur) cur rest

/-- `os.makedirs(p, exist_ok=True)`: recursively ensure every nonempty
prefix of `p` is a directory. -/
def makedirs (fs : FS) (p : FsPath) : FS × Option FsError := mkdirsAux fs [] p

/-- `os.path.join(b, r)` (POSIX flavour). -/
def ospJoin (b r : String) : String := b ++ "/" ++ r

/-- Result of a run: final filesystem, console output lines, and the error
that aborted the run, if any. -/
@[ext]
structure RunResult where
  fs : FS
  output : List String
  err : Option FsError
deriving DecidableEq

/-- The two lines emitted by the final
`print` of `'\nDirectory structure created successfully!'`:
an empty line, then the summary text. -/
def summaryLines : List String := ["", "Directory structure created successfully!"]

/-- The `for directory in directories` loop: join each entry to the base,
create it recursively, print `Created: <fullPath>`; abort on the first
filesystem error (the failing entry prints nothing). -/
def runDirs (fs : FS) (b : String) : List String → RunResult
  | [] => ⟨fs, [], none⟩
  | d :: rest =>
    let m := makedirs fs (segsOf (ospJoin b d))
    match m.2 with
    | some e => ⟨m.1, [], some e⟩
    | none =>
      let r := runDirs m.1 b rest
      ⟨r.fs, ("Created: " ++ ospJoin b d) :: r.output, r.err⟩

/-- The whole script: the loop over the path list, then (only on success)
the final summary print. -/
def run (fs : FS) (b : String) (l : List String) : RunResult :=
  let r := runDirs fs b l
  match r.err with
  | none => ⟨r.fs, r.output ++ summaryLines, none⟩
  | some _ => r

/-- The hardcoded base directory of the script (`base_dir`). -/
def base_dir : String := "d:\\flutter_projects\\flutter_bloc_tutorial\\lib"

/-- The static path list of the script (`directories`), verbatim. -/
def directories : List String := [
  "core/error",
  "core/usecases",
  "features/user/domain/entities",
  "features/user/domain/repositories",
  "features/user/domain/usecases",
  "features/user/data/datasources",
  "features/user/data/models",
  "features/user/data/repositories",
  "features/user/presentation/bloc",
  "features/user/presentation/screens",
  "features/user/presentation/widgets",
  "features/post/domain/entities",
  "features/post/domain/repositories",
  "features/post/domain/usecases",
  "features/post/data/datasources",
  "features/post/data/models",
  "features/post/data/repositories",
  "features/post/presentation/cubit",
  "features/post/presentation/screens",
  "features/post/presentation/widgets",
  "features/product/domain/entities",
  "features/product/domain/repositories",
  "features/product/domain/usecases",
  "features/product/data/datasources",
  "features/product/data/models",
  "features/product/data/repositories",
  "features/product/presentation/bloc",
  "features/product/presentation/screens",
  "features/product/presentation/widgets"]

/-- Built from the spec's words, for comparison with `directories`: the nine
per-feature paths — `domain/{entities,repositories,usecases}`,
`data/{datasources,models,repositories}`, and under `presentation` the
state-management folder (`bloc`, or `cubit` for the post feature) together
with `screens` and `widgets`. -/
def specFeatureDirs (name pres : String) : List String :=
  [ "features/" ++ name ++ "/domain/entities",
    "features/" ++ name ++ "/domain/repositories",
    "features/" ++ name ++ "/domain/usecases",
    "features/" ++ name ++ "/data/datasources",
    "features/" ++ name ++ "/data/models",
    "features/" ++ name ++ "/data/repositories",
    "features/" ++ name ++ "/presentation/" ++ pres,
    "features/" ++ name ++ "/presentation/screens",
    "features/" ++ name ++ "/presentation/widgets" ]

/-- Built from the spec's words, for comparison with `directories`:
`core/error` and `core/usecases`, then the triads for the features `user`,
`post` and `product`, with `cubit` replacing `bloc` for `post`. -/
def specDirectories : List String :=
  ["core/error", "core/usecases"]
    ++ specFeatureDirs "user" "bloc"
    ++ specFeatureDirs "post" "cubit"
    ++ specFeatureDirs "product" "bloc"

/-- Membership reading of `FS.isDir`. -/
theorem FS.isDir_iff_mem (fs : FS) (p : FsPath) :
    fs.isDir p = true ↔ p ∈ fs.dirs := by
  simp [FS.isDir]

/-- Adding a directory does not touch the files. -/
theorem FS.isFile_addDir (fs : FS) (p q : FsPath) :
    (fs.addDir p).isFile q = fs.isFile q := rfl

/-- Ensuring a directory does not touch the files. -/
theorem FS.isFile_ensureDir (fs : FS) (p q : FsPath) :
    (fs.ensureDir p).isFile q = fs.isFile q := by
  unfold FS.ensureDir
  split <;> rfl

/-- Directory membership after `addDir`. -/
theorem FS.isDir_addDir (fs : FS) (p q : FsPath) :
    (fs.addDir p).isDir q = true ↔ q = p ∨ fs.isDir q = true := by
  simp [FS.addDir, FS.isDir]

/-- Directory membership after `ensureDir`. -/
theorem FS.isDir_ensureDir (fs : FS) (p q : FsPath) :
    (fs.ensureDir p).isDir q = true ↔ q = p ∨ fs.isDir q = true := by
  unfold FS.ensureDir
  split
  · rename_i hdir
    constructor
    · exact Or.inr
    · rintro (rfl | h)
      · exact hdir
      · exact h
  · exact fs.isDir_addDir p q

/-- Ensuring an existing directory is the identity. -/
theorem FS.ensureDir_of_isDir (fs : FS) (p : FsPath) (h : fs.isDir p = true) :
    fs.ensureDir p = fs := by
  unfold FS.ensureDir
  simp [h]

/-- `mkdirsAux` never changes the set of regular files. -/
theorem mkdirsAux_isFile (rest : List String) (fs : FS) (done q : FsPath) :
    (mkdirsAux fs done rest).1.isFile q = fs.isFile q := by
  induction rest generalizing fs done with
  | nil => rfl
  | cons s rest ih =>
    simp only [mkdirsAux]
    split
    · rfl
    · rw [ih, FS.isFile_ensureDir]

/-- Decomposition of the nonempty-prefix-with-offset predicate over a cons. -/
theorem nePre_cons (s : String) (rest : List String) (done q : FsPath) :
    (∃ r : FsPath, r ≠ [] ∧ r <+: (s :: rest) ∧ q = done ++ r) ↔
      q = done ++ [s] ∨ ∃ r : FsPath, r ≠ [] ∧ r <+: rest ∧ q = done ++ s :: r := by
  constructor
  · rintro ⟨r, hne, hpre, rfl⟩
    match r, hne with
    | a :: r', _ =>
      obtain ⟨rfl, hpre'⟩ := List.cons_prefix_cons.mp hpre
      match r' with
      | [] => exact Or.inl rfl
      | b :: r'' => exact Or.inr ⟨b :: r'', List.cons_ne_nil _ _, hpre', rfl⟩
  · rintro (rfl | ⟨r, hne, hpre, rfl⟩)
    · exact ⟨[s], List.cons_ne_nil _ _, ⟨rest, rfl⟩, rfl⟩
    · exact ⟨s :: r, List.cons_ne_nil _ _,
        List.cons_prefix_cons.mpr ⟨rfl, hpre⟩, rfl⟩

/-- `mkdirsAux` succeeds exactly when no nonempty prefix of the remaining
segments names a regular file (relative to the processed ancestor). -/
theorem mkdirsAux_err_none (rest : List String) (fs : FS) (done : FsPath) :
    (mkdirsAux fs done rest).2 = none ↔
      ∀ q : FsPath, q ≠ [] → q <+: rest → fs.isFile (done ++ q) = false := by
  induction rest generalizing fs done with
  | nil =>
    constructor
    · intro _ q hq hpre
      exact absurd (List.prefix_nil.mp hpre) hq
    · intro _
      rfl
  | cons s rest ih =>
    simp only [mkdirsAux]
    split
    · rename_i hfile
      constructor
      · intro hc
        cases hc
      · intro hall
        have h1 := hall [s] (List.cons_ne_nil _ _) ⟨rest, rfl⟩
        rw [hfile] at h1
        cases h1
    · rename_i hfile
      rw [ih]
      constructor
      · intro hall q hq hpre
        match q, hq with
        | a :: q', _ =>
          obtain ⟨rfl, hpre'⟩ := List.cons_prefix_cons.mp hpre
          match q' with
          | [] =>
            exact Bool.not_eq_true _ |>.mp hfile
          | b :: q'' =>
            have := hall (b :: q'') (List.cons_ne_nil _ _) hpre'
            rw [FS.isFile_ensureDir] at this
            simpa using this
      · intro hall q hq hpre
        rw [FS.isFile_ensureDir]
        have := hall (s :: q) (List.cons_ne_nil _ _)
          (List.cons_prefix_cons.mpr ⟨rfl, hpre⟩)
        simpa using this

/-- On success, the directories after `mkdirsAux` are the old ones plus all
nonempty prefixes of the remaining segments. -/
theorem mkdirsAux_isDir (rest : List String) (fs : FS) (done q : FsPath)
    (h : (mkdirsAux fs done rest).2 = none) :
    (mkdirsAux fs done rest).1.isDir q = true ↔
      fs.isDir q = true ∨ ∃ r : FsPath, r ≠ [] ∧ r <+: rest ∧ q = done ++ r := by
  induction rest generalizing fs done with
  | nil =>
    simp only [mkdirsAux]
    constructor
    · exact Or.inl
    · rintro (hd | ⟨r, hne, hpre, rfl⟩)
      · exact hd
      · exact absurd (List.prefix_nil.mp hpre) hne
  | cons s rest ih =>
    rw [nePre_cons]
    simp only [mkdirsAux] at h ⊢
    split at h
    · cases h
    · rename_i hfile
      rw [if_neg hfile, ih _ _ h, FS.isDir_ensureDir]
      constructor
      · rintro ((rfl | hd) | ⟨r, hne, hpre, rfl⟩)
        · exact Or.inr (Or.inl rfl)
        · exact Or.inl hd
        · refine Or.inr (Or.inr ⟨r, hne, hpre, ?_⟩)
          simp
      · rintro (hd | (rfl | ⟨r, hne, hpre, rfl⟩))
        · exact Or.inl (Or.inr hd)
        · exact Or.inl (Or.inl rfl)
        · refine Or.inr ⟨r, hne, hpre, ?_⟩
          simp

/-- `mkdirsAux` never removes a directory. -/
theorem mkdirsAux_isDir_mono (rest : List String) (fs : FS) (done q : FsPath)
    (h : fs.isDir q = true) :
    (mkdirsAux fs done rest).1.isDir q = true := by
  induction rest generalizing fs done with
  | nil => exact h
  | cons s rest ih =>
    simp only [mkdirsAux]
    split
    · exact h
    · exact ih _ _ ((fs.isDir_ensureDir _ q).mpr (Or.inr h))

/-- When every nonempty prefix of the remaining segments is already a
directory and none is a file, `mkdirsAux` is a no-op success. -/
theorem mkdirsAux_noop (rest : List String) (fs : FS) (done : FsPath)
    (h : ∀ q : FsPath, q ≠ [] → q <+: rest →
      fs.isDir (done ++ q) = true ∧ fs.isFile (done ++ q) = false) :
    mkdirsAux fs done rest = (fs, none) := by
  induction rest generalizing done with
  | nil => rfl
  | cons s rest ih =>
    have hs := h [s] (List.cons_ne_nil _ _) ⟨rest, rfl⟩
    simp only [mkdirsAux]
    rw [if_neg (by simp [hs.2]), fs.ensureDir_of_isDir _ hs.1]
    apply ih
    intro q hq hpre
    have := h (s :: q) (List.cons_ne_nil _ _)
      (List.cons_prefix_cons.mpr ⟨rfl, hpre⟩)
    simpa using this

/-- `makedirs` never changes the set of regular files. -/
theorem makedirs_isFile (fs : FS) (p q : FsPath) :
    (makedirs fs p).1.isFile q = fs.isFile q :=
  mkdirsAux_isFile p fs [] q

/-- `makedirs` succeeds exactly when no nonempty prefix of the path names a
regular file. -/
theorem makedirs_err_none (fs : FS) (p : FsPath) :
    (makedirs fs p).2 = none ↔
      ∀ q : FsPath, q ≠ [] → q <+: p → fs.isFile q = false := by
  rw [makedirs, mkdirsAux_err_none]
  simp

/-- On success, the directories after `makedirs` are the old ones plus all
nonempty prefixes of the path. -/
theorem makedirs_isDir (fs : FS) (p q : FsPath)
    (h : (makedirs fs p).2 = none) :
    (makedirs fs p).1.isDir q = true ↔
      fs.isDir q = true ∨ (q ≠ [] ∧ q <+: p) := by
  rw [makedirs, mkdirsAux_isDir _ _ _ _ h]
  constructor
  · rintro (hd | ⟨r, hne, hpre, rfl⟩)
    · exact Or.inl hd
    · exact Or.inr ⟨hne, hpre⟩
  · rintro (hd | ⟨hne, hpre⟩)
    · exact Or.inl hd
    · exact Or.inr ⟨q, hne, hpre, rfl⟩

/-- `makedirs` never removes a directory. -/
theorem makedirs_isDir_mono (fs : FS) (p q : FsPath)
    (h : fs.isDir q = true) :
    (makedirs fs p).1.isDir q = true :=
  mkdirsAux_isDir_mono p fs [] q h

/-- When every nonempty prefix of the path is already a directory and none
is a file, `makedirs` is a no-op success. -/
theorem makedirs_noop (fs : FS) (p : FsPath)
    (h : ∀ q : FsPath, q ≠ [] → q <+: p →
      fs.isDir q = true ∧ fs.isFile q = false) :
    makedirs fs p = (fs, none) := by
  rw [makedirs]
  apply mkdirsAux_noop
  simpa using h

/-- Unfolding of the loop at a failing entry: the loop stops, nothing is
printed for the entry, and the partially mutated filesystem remains. -/
theorem runDirs_cons_err (fs : FS) (b d : String) (rest : List String)
    (e : FsError) (hm : (makedirs fs (segsOf (ospJoin b d))).2 = some e) :
    runDirs fs b (d :: rest) =
      ⟨(makedirs fs (segsOf (ospJoin b d))).1, [], some e⟩ := by
  simp only [runDirs, hm]

/-- Unfolding of the loop at a succeeding entry. -/
theorem runDirs_cons_ok (fs : FS) (b d : String) (rest : List String)
    (hm : (makedirs fs (segsOf (ospJoin b d))).2 = none) :
    runDirs fs b (d :: rest) =
      ⟨(runDirs (makedirs fs (segsOf (ospJoin b d))).1 b rest).fs,
        ("Created: " ++ ospJoin b d) ::
          (runDirs (makedirs fs (segsOf (ospJoin b d))).1 b rest).output,
        (runDirs (makedirs fs (segsOf (ospJoin b d))).1 b rest).err⟩ := by
  simp only [runDirs, hm]

/-- The loop never changes the set of regular files. -/
theorem runDirs_isFile (l : List String) (fs : FS) (b : String) (q : FsPath) :
    (runDirs fs b l).fs.isFile q = fs.isFile q := by
  induction l generalizing fs with
  | nil => rfl
  | cons d rest ih =>
    cases hm : (makedirs fs (segsOf (ospJoin b d))).2 with
    | none =>
      rw [runDirs_cons_ok _ _ _ _ hm]
      exact (ih _).trans (makedirs_isFile fs _ q)
    | some e =>
      rw [runDirs_cons_err _ _ _ _ _ hm]
      exact makedirs_isFile fs _ q

/-- The loop succeeds exactly when, for every entry, no nonempty prefix of
its full path names a regular file in the starting filesystem. -/
theorem runDirs_err_none (l : List String) (fs : FS) (b : String) :
    (runDirs fs b l).err = none ↔
      ∀ d ∈ l, ∀ q : FsPath, q ≠ [] → q <+: segsOf (ospJoin b d) →
        fs.isFile q = false := by
  induction l generalizing fs with
  | nil =>
    simp [runDirs]
  | cons d rest ih =>
    cases hm : (makedirs fs (segsOf (ospJoin b d))).2 with
    | none =>
      rw [runDirs_cons_ok _ _ _ _ hm]
      simp only [List.forall_mem_cons]
      rw [show (⟨_, _, (runDirs (makedirs fs (segsOf (ospJoin b d))).1 b rest).err⟩ :
          RunResult).err = (runDirs (makedirs fs (segsOf (ospJoin b d))).1 b rest).err from rfl]
      rw [ih]
      constructor
      · intro hall
        refine ⟨(makedirs_err_none fs _).mp hm, ?_⟩
        intro d' hd' q hq hpre
        rw [← makedirs_isFile fs (segsOf (ospJoin b d)) q]
        exact hall d' hd' q hq hpre
      · rintro ⟨_, hall⟩ d' hd' q hq hpre
        rw [makedirs_isFile fs (segsOf (ospJoin b d)) q]
        exact hall d' hd' q hq hpre
    | some e =>
      rw [runDirs_cons_err _ _ _ _ _ hm]
      simp only [List.forall_mem_cons]
      constructor
      · intro hc
        cases hc
      · rintro ⟨hhead, _⟩
        rw [(makedirs_err_none fs _).mpr hhead] at hm
        cases hm

/-- On success, the directories after the loop are the old ones plus every
nonempty prefix of every entry's full path. -/
theorem runDirs_isDir (l : List String) (fs : FS) (b : String) (q : FsPath)
    (h : (runDirs fs b l).err = none) :
    (runDirs fs b l).fs.isDir q = true ↔
      fs.isDir q = true ∨
        ∃ d ∈ l, q ≠ [] ∧ q <+: segsOf (ospJoin b d) := by
  induction l generalizing fs with
  | nil =>
    simp [runDirs]
  | cons d rest ih =>
    cases hm : (makedirs fs (segsOf (ospJoin b d))).2 with
    | none =>
      rw [runDirs_cons_ok _ _ _ _ hm] at h ⊢
      rw [show (⟨(runDirs (makedirs fs (segsOf (ospJoin b d))).1 b rest).fs, _, _⟩ :
          RunResult).fs = (runDirs (makedirs fs (segsOf (ospJoin b d))).1 b rest).fs from rfl]
      rw [ih _ h, makedirs_isDir _ _ _ hm]
      simp only [List.exists_mem_cons_iff]
      tauto
    | some e =>
      rw [runDirs_cons_err _ _ _ _ _ hm] at h
      cases h

/-- The loop never removes a directory. -/
theorem runDirs_isDir_mono (l : List String) (fs : FS) (b : String)
    (q : FsPath) (h : fs.isDir q = true) :
    (runDirs fs b l).fs.isDir q = true := by
  induction l generalizing fs with
  | nil => exact h
  | cons d rest ih =>
    cases hm : (makedirs fs (segsOf (ospJoin b d))).2 with
    | none =>
      rw [runDirs_cons_ok _ _ _ _ hm]
      exact ih _ (makedirs_isDir_mono fs _ q h)
    | some e =>
      rw [runDirs_cons_err _ _ _ _ _ hm]
      exact makedirs_isDir_mono fs _ q h

/-- On success, the loop prints exactly one `Created:` line per entry, in
list order. -/
theorem runDirs_output (l : List String) (fs : FS) (b : String)
    (h : (runDirs fs b l).err = none) :
    (runDirs fs b l).output = l.map (fun d => "Created: " ++ ospJoin b d) := by
  induction l generalizing fs with
  | nil => rfl
  | cons d rest ih =>
    cases hm : (makedirs fs (segsOf (ospJoin b d))).2 with
    | none =>
      rw [runDirs_cons_ok _ _ _ _ hm] at h ⊢
      simp only [List.map_cons, List.cons.injEq, true_and]
      exact ih _ h
    | some e =>
      rw [runDirs_cons_err _ _ _ _ _ hm] at h
      cases h

/-- When, for every entry, every nonempty prefix of its full path is
already a directory and none is a file, the loop is a no-op success. -/
theorem runDirs_noop (l : List String) (fs : FS) (b : String)
    (h : ∀ d ∈ l, ∀ q : FsPath, q ≠ [] → q <+: segsOf (ospJoin b d) →
      fs.isDir q = true ∧ fs.isFile q = false) :
    runDirs fs b l = ⟨fs, l.map (fun d => "Created: " ++ ospJoin b d), none⟩ := by
  induction l with
  | nil => rfl
  | cons d rest ih =>
    have hmk : makedirs fs (segsOf (ospJoin b d)) = (fs, none) :=
      makedirs_noop fs _ (h d (List.mem_cons_self d rest))
    have hm2 : (makedirs fs (segsOf (ospJoin b d))).2 = none := by rw [hmk]
    have hm1 : (makedirs fs (segsOf (ospJoin b d))).1 = fs := by rw [hmk]
    rw [runDirs_cons_ok _ _ _ _ hm2, hm1,
      ih (fun d' hd' => h d' (List.mem_cons_of_mem _ hd'))]
    rfl

/-- Splitting the loop over an append whose first half succeeds. -/
theorem runDirs_append_ok (xs ys : List String) (fs : FS) (b : String)
    (h : (runDirs fs b xs).err = none) :
    runDirs fs b (xs ++ ys) =
      ⟨(runDirs (runDirs fs b xs).fs b ys).fs,
        (runDirs fs b xs).output ++ (runDirs (runDirs fs b xs).fs b ys).output,
        (runDirs (runDirs fs b xs).fs b ys).err⟩ := by
  induction xs generalizing fs with
  | nil => rfl
  | cons d xs ih =>
    cases hm : (makedirs fs (segsOf (ospJoin b d))).2 with
    | none =>
      rw [runDirs_cons_ok _ _ _ _ hm] at h
      have h' : (runDirs (makedirs fs (segsOf (ospJoin b d))).1 b xs).err = none := h
      rw [List.cons_append, runDirs_cons_ok _ _ _ _ hm, runDirs_cons_ok _ _ _ _ hm,
        ih _ h']
      rfl
    | some e =>
      rw [runDirs_cons_err _ _ _ _ _ hm] at h
      cases h

/-- Once the loop has failed, appending further entries changes nothing:
they are never attempted. -/
theorem runDirs_append_err (xs ys : List String) (fs : FS) (b : String)
    (h : (runDirs fs b xs).err ≠ none) :
    runDirs fs b (xs ++ ys) = runDirs fs b xs := by
  induction xs generalizing fs with
  | nil => exact absurd rfl h
  | cons d xs ih =>
    cases hm : (makedirs fs (segsOf (ospJoin b d))).2 with
    | none =>
      have h' : (runDirs (makedirs fs (segsOf (ospJoin b d))).1 b xs).err ≠ none := by
        rw [runDirs_cons_ok _ _ _ _ hm] at h
        exact h
      rw [List.cons_append, runDirs_cons_ok _ _ _ _ hm, runDirs_cons_ok _ _ _ _ hm,
        ih _ h']
    | some e =>
      rw [List.cons_append, runDirs_cons_err _ _ _ _ _ hm,
        runDirs_cons_err _ _ _ _ _ hm]

/-- The run reports exactly the loop's error. -/
theorem run_err (fs : FS) (b : String) (l : List String) :
    (run fs b l).err = (runDirs fs b l).err := by
  simp only [run]
  split
  · rename_i heq
    rw [heq]
  · rename_i e heq
    rw [heq]

/-- The run's final filesystem is the loop's final filesystem. -/
theorem run_fs_eq (fs : FS) (b : String) (l : List String) :
    (run fs b l).fs = (runDirs fs b l).fs := by
  simp only [run]
  split <;> rfl

/-- On success, the run's output is the loop's output followed by the
summary lines. -/
theorem run_output_of_ok (fs : FS) (b : String) (l : List String)
    (h : (runDirs fs b l).err = none) :
    (run fs b l).output = (runDirs fs b l).output ++ summaryLines := by
  simp only [run, h]

/-- On failure, the run is exactly the aborted loop: no summary is
printed. -/
theorem run_of_err (fs : FS) (b : String) (l : List String) (e : FsError)
    (h : (runDirs fs b l).err = some e) : run fs b l = runDirs fs b l := by
  simp only [run, h]

/-- The splitter never returns an empty segment list. -/
theorem splitChars_ne_nil (cs : List Char) : splitChars cs ≠ [] := by
  match cs with
  | [] => simp [splitChars]
  | c :: cs' =>
    simp only [splitChars]
    cases h : splitChars cs' with
    | nil => simp
    | cons seg segs =>
      by_cases hc : c = '/' <;> simp [hc]

/-- A path string always has at least one segment. -/
theorem segsOf_ne_nil (s : String) : segsOf s ≠ [] := by
  intro hc
  rw [segsOf] at hc
  exact splitChars_ne_nil s.data (List.map_eq_nil_iff.mp hc)

/-- Splitting distributes over a slash in the middle. -/
theorem splitChars_append (xs ys : List Char) :
    splitChars (xs ++ '/' :: ys) = splitChars xs ++ splitChars ys := by
  induction xs with
  | nil =>
    cases h : splitChars ys with
    | nil => exact absurd h (splitChars_ne_nil ys)
    | cons seg segs => simp [splitChars, h]
  | cons c xs ih =>
    obtain ⟨seg, segs, h⟩ : ∃ seg segs, splitChars xs = seg :: segs := by
      cases h : splitChars xs with
      | nil => exact absurd h (splitChars_ne_nil xs)
      | cons seg segs => exact ⟨seg, segs, rfl⟩
    rw [List.cons_append]
    simp only [splitChars, ih, h, List.cons_append]
    by_cases hc : c = '/' <;> simp [hc]

/-- Characters of a joined path. -/
theorem data_ospJoin (b r : String) :
    (ospJoin b r).data = b.data ++ '/' :: r.data := by
  simp [ospJoin, String.data_append]

/-- Segments of a joined path: the base's segments then the entry's. -/
theorem segsOf_ospJoin (b r : String) :
    segsOf (ospJoin b r) = segsOf b ++ segsOf r := by
  simp [segsOf, data_ospJoin, splitChars_append]

/-- Bool equality from an equivalence of the two truths. -/
theorem bool_eq_of_iff {a b : Bool} (h : a = true ↔ b = true) : a = b := by
  cases a <;> cases b <;> simp_all

/-- C7: the static `directories` list is exactly the tree the spec
describes: the core pair plus, for each of the features user, post and
product, the nine feature paths, with `cubit` in place of `bloc` for the
post feature. -/
theorem directories_eq_specDirectories : directories = specDirectories := by
  decide

/-- C8: on an empty path list the run changes nothing on the filesystem (in
particular the base directory is not created) and the console output is
just the trailing summary output: the blank line and the success line. -/
theorem run_nil (fs : FS) (b : String) :
    run fs b [] = ⟨fs, summaryLines, none⟩ := rfl

/-- C1: after a successful run, every entry's joined path
`join(base, entry)` exists as a directory. -/
theorem run_creates_every_entry (fs : FS) (b : String) (l : List String)
    (h : (run fs b l).err = none) :
    ∀ d ∈ l, (run fs b l).fs.isDir (segsOf (ospJoin b d)) = true := by
  intro d hd
  rw [run_err] at h
  rw [run_fs_eq, runDirs_isDir _ _ _ _ h]
  exact Or.inr ⟨d, hd, segsOf_ne_nil _, List.prefix_refl _⟩

/-- Witness for C1 at a concrete successful run. -/
theorem run_creates_every_entry_witness :
    (run FS.empty "b" ["a"]).err = none ∧
      (run FS.empty "b" ["a"]).fs.isDir (segsOf (ospJoin "b" "a")) = true :=
  ⟨by decide,
    run_creates_every_entry FS.empty "b" ["a"] (by decide) "a" (by decide)⟩

/-- C2: on success the console output is exactly one `Created: <fullPath>`
line per entry, in list order, then a blank line, then the line
`Directory structure created successfully!`. -/
theorem run_output_format (fs : FS) (b : String) (l : List String)
    (h : (run fs b l).err = none) :
    (run fs b l).output =
      l.map (fun d => "Created: " ++ ospJoin b d) ++
        ["", "Directory structure created successfully!"] := by
  rw [run_err] at h
  rw [run_output_of_ok _ _ _ h, runDirs_output _ _ _ h]
  rfl

/-- Witness for C2 at a concrete successful run. -/
theorem run_output_format_witness :
    (run FS.empty "b" ["a"]).err = none ∧
      (run FS.empty "b" ["a"]).output =
        ["a"].map (fun d => "Created: " ++ ospJoin "b" d) ++
          ["", "Directory structure created successfully!"] :=
  ⟨by decide, run_output_format FS.empty "b" ["a"] (by decide)⟩

/-- C3 as stated is false: on the successful run with one entry the output
has three lines, not `1 + 1` — the final print contributes a blank line in
addition to the summary line. -/
theorem run_output_length_counterexample :
    (run FS.empty "b" ["a"]).err = none ∧
      (run FS.empty "b" ["a"]).output.length ≠ (["a"] : List String).length + 1 := by
  decide

/-- C3 amended: on success the number of console output lines is the number
of entries plus two (one `Created:` line per entry, then the blank line and
the summary line). -/
theorem run_output_length (fs : FS) (b : String) (l : List String)
    (h : (run fs b l).err = none) :
    (run fs b l).output.length = l.length + 2 := by
  rw [run_err] at h
  rw [run_output_of_ok _ _ _ h, runDirs_output _ _ _ h]
  simp [summaryLines]

/-- Witness for the amended C3 at a concrete successful run. -/
theorem run_output_length_witness :
    (run FS.empty "b" ["a"]).err = none ∧
      (run FS.empty "b" ["a"]).output.length = (["a"] : List String).length + 2 :=
  ⟨by decide, run_output_length FS.empty "b" ["a"] (by decide)⟩

/-- C4: running the scaffolder again over the final filesystem of a
successful run succeeds, leaves the filesystem literally unchanged (every
target already exists as a directory, an idempotent no-op success), and
prints the same output. -/
theorem run_idempotent (fs : FS) (b : String) (l : List String)
    (h : (run fs b l).err = none) :
    run (run fs b l).fs b l = ⟨(run fs b l).fs, (run fs b l).output, none⟩ := by
  rw [run_err] at h
  have hnoop : runDirs (runDirs fs b l).fs b l =
      ⟨(runDirs fs b l).fs, l.map (fun d => "Created: " ++ ospJoin b d), none⟩ := by
    apply runDirs_noop
    intro d hd q hq hpre
    constructor
    · rw [runDirs_isDir _ _ _ _ h]
      exact Or.inr ⟨d, hd, hq, hpre⟩
    · rw [runDirs_isFile]
      exact (runDirs_err_none _ _ _).mp h d hd q hq hpre
  have he : (runDirs (runDirs fs b l).fs b l).err = none := by rw [hnoop]
  apply RunResult.ext
  · rw [run_fs_eq, run_fs_eq, hnoop]
  · rw [run_fs_eq, run_output_of_ok _ _ _ he, hnoop, run_output_of_ok _ _ _ h,
      runDirs_output _ _ _ h]
  · rw [run_fs_eq, run_err, he]

/-- Witness for C4 at a concrete successful run. -/
theorem run_idempotent_witness :
    (run FS.empty "b" ["a"]).err = none ∧
      run (run FS.empty "b" ["a"]).fs "b" ["a"] =
        ⟨(run FS.empty "b" ["a"]).fs, (run FS.empty "b" ["a"]).output, none⟩ :=
  ⟨by decide, run_idempotent FS.empty "b" ["a"] (by decide)⟩

/-- C5: when an entry's full path is occupied by a regular file and the
entries before it run without error, the run fails, the directories of the
earlier entries are in place, and the entries after the failing one are
never attempted (fail-fast, no rollback). -/
theorem run_file_conflict (fs : FS) (b d : String) (l₁ l₂ : List String)
    (h1 : (run fs b l₁).err = none)
    (h2 : fs.isFile (segsOf (ospJoin b d)) = true) :
    (run fs b (l₁ ++ d :: l₂)).err ≠ none ∧
      (∀ e ∈ l₁,
        (run fs b (l₁ ++ d :: l₂)).fs.isDir (segsOf (ospJoin b e)) = true) ∧
      run fs b (l₁ ++ d :: l₂) = run fs b (l₁ ++ [d]) := by
  rw [run_err] at h1
  have hfile₁ : (runDirs fs b l₁).fs.isFile (segsOf (ospJoin b d)) = true := by
    rw [runDirs_isFile]
    exact h2
  obtain ⟨e', hmk'⟩ :
      ∃ e', (makedirs (runDirs fs b l₁).fs (segsOf (ospJoin b d))).2 = some e' := by
    cases hmkc : (makedirs (runDirs fs b l₁).fs (segsOf (ospJoin b d))).2 with
    | none =>
      have := (makedirs_err_none _ _).mp hmkc (segsOf (ospJoin b d))
        (segsOf_ne_nil _) (List.prefix_refl _)
      rw [hfile₁] at this
      cases this
    | some e' => exact ⟨e', rfl⟩
  have hstep : runDirs (runDirs fs b l₁).fs b (d :: l₂) =
      runDirs (runDirs fs b l₁).fs b [d] := by
    rw [runDirs_cons_err _ _ _ _ _ hmk', runDirs_cons_err _ _ _ _ _ hmk']
  have happ : runDirs fs b (l₁ ++ d :: l₂) = runDirs fs b (l₁ ++ [d]) := by
    rw [runDirs_append_ok _ _ _ _ h1, runDirs_append_ok _ _ _ _ h1, hstep]
  have herr2 : (runDirs fs b (l₁ ++ [d])).err = some e' := by
    rw [runDirs_append_ok _ _ _ _ h1]
    show (runDirs (runDirs fs b l₁).fs b [d]).err = some e'
    rw [runDirs_cons_err _ _ _ _ _ hmk']
  have herrL : (runDirs fs b (l₁ ++ d :: l₂)).err = some e' := by
    rw [happ, herr2]
  refine ⟨?_, ?_, ?_⟩
  · rw [run_err, herrL]
    simp
  · intro e he
    rw [run_fs_eq, happ, runDirs_append_ok _ _ _ _ h1]
    show (runDirs (runDirs fs b l₁).fs b [d]).fs.isDir _ = true
    apply runDirs_isDir_mono
    rw [runDirs_isDir _ _ _ _ h1]
    exact Or.inr ⟨e, he, segsOf_ne_nil _, List.prefix_refl _⟩
  · rw [run_of_err _ _ _ _ herrL, run_of_err _ _ _ _ herr2, happ]

/-- Witness for C5 at a concrete conflicting run: the entry after the
failing one is never attempted. -/
theorem run_file_conflict_witness :
    (run ⟨[], [["b", "f"]]⟩ "b" ["a"]).err = none ∧
      (⟨[], [["b", "f"]]⟩ : FS).isFile (segsOf (ospJoin "b" "f")) = true ∧
      run ⟨[], [["b", "f"]]⟩ "b" (["a"] ++ "f" :: ["c"]) =
        run ⟨[], [["b", "f"]]⟩ "b" (["a"] ++ ["f"]) :=
  ⟨by decide, by decide,
    (run_file_conflict ⟨[], [["b", "f"]]⟩ "b" "f" ["a"] ["c"]
      (by decide) (by decide)).2.2⟩

/-- C6: a successful run on a permutation of the path list also succeeds
and yields the same final filesystem state. -/
theorem run_order_independent (fs : FS) (b : String) (l₁ l₂ : List String)
    (hp : l₁.Perm l₂) (h : (run fs b l₁).err = none) :
    (run fs b l₂).err = none ∧
      ∀ q : FsPath, (run fs b l₂).fs.isDir q = (run fs b l₁).fs.isDir q ∧
        (run fs b l₂).fs.isFile q = (run fs b l₁).fs.isFile q := by
  rw [run_err] at h
  have h₂ : (runDirs fs b l₂).err = none := by
    rw [runDirs_err_none]
    intro d hd
    exact (runDirs_err_none _ _ _).mp h d (hp.mem_iff.mpr hd)
  refine ⟨by rw [run_err]; exact h₂, ?_⟩
  intro q
  constructor
  · rw [run_fs_eq, run_fs_eq]
    apply bool_eq_of_iff
    rw [runDirs_isDir _ _ _ _ h₂, runDirs_isDir _ _ _ _ h]
    constructor
    · rintro (hd | ⟨d, hd, hq, hpre⟩)
      · exact Or.inl hd
      · exact Or.inr ⟨d, hp.mem_iff.mpr hd, hq, hpre⟩
    · rintro (hd | ⟨d, hd, hq, hpre⟩)
      · exact Or.inl hd
      · exact Or.inr ⟨d, hp.mem_iff.mp hd, hq, hpre⟩
  · rw [run_fs_eq, run_fs_eq, runDirs_isFile, runDirs_isFile]

/-- Witness for C6 at a concrete permutation. -/
theorem run_order_independent_witness :
    (["a", "b"] : List String).Perm ["b", "a"] ∧
      (run FS.empty "x" ["a", "b"]).err = none ∧
      (run FS.empty "x" ["b", "a"]).err = none :=
  ⟨List.Perm.swap "b" "a" [], by decide,
    (run_order_independent FS.empty "x" ["a", "b"] ["b", "a"]
      (List.Perm.swap "b" "a" []) (by decide)).1⟩

/-- C9: the confirmation lines are printed whether or not the target
directories pre-exist: any two successful runs over the same base and list
print identical console output, whatever each starting filesystem holds. -/
theorem run_output_independent_of_fs (fs₁ fs₂ : FS) (b : String)
    (l : List String) (h₁ : (run fs₁ b l).err = none)
    (h₂ : (run fs₂ b l).err = none) :
    (run fs₁ b l).output = (run fs₂ b l).output := by
  rw [run_err] at h₁ h₂
  rw [run_output_of_ok _ _ _ h₁, run_output_of_ok _ _ _ h₂,
    runDirs_output _ _ _ h₁, runDirs_output _ _ _ h₂]

/-- Witness for C9: one run starts from the empty filesystem, the other
with the target directory already present. -/
theorem run_output_independent_of_fs_witness :
    (run FS.empty "x" ["a"]).err = none ∧
      (run ⟨[["x"], ["x", "a"]], []⟩ "x" ["a"]).err = none ∧
      (run FS.empty "x" ["a"]).output =
        (run ⟨[["x"], ["x", "a"]], []⟩ "x" ["a"]).output :=
  ⟨by decide, by decide,
    run_output_independent_of_fs FS.empty ⟨[["x"], ["x", "a"]], []⟩ "x" ["a"]
      (by decide) (by decide)⟩

/-- C10: with a nonempty path list and an absent base directory, a
successful run creates the base directory itself: it is a missing
intermediate segment of every entry's full path and the recursive creation
primitive creates all missing parents. -/
theorem run_creates_base (fs : FS) (b : String) (l : List String)
    (hne : l ≠ []) (_hd : fs.isDir (segsOf b) = false)
    (_hf : fs.isFile (segsOf b) = false) (h : (run fs b l).err = none) :
    (run fs b l).fs.isDir (segsOf b) = true := by
  rw [run_err] at h
  rw [run_fs_eq, runDirs_isDir _ _ _ _ h]
  match l, hne with
  | d :: rest, _ =>
    refine Or.inr ⟨d, List.mem_cons_self d rest, segsOf_ne_nil b, ?_⟩
    rw [segsOf_ospJoin]
    exact List.prefix_append _ _

/-- Witness for C10 at a concrete run from the empty filesystem. -/
theorem run_creates_base_witness :
    (["a"] : List String) ≠ [] ∧
      FS.empty.isDir (segsOf "x") = false ∧
      FS.empty.isFile (segsOf "x") = false ∧
      (run FS.empty "x" ["a"]).err = none ∧
      (run FS.empty "x" ["a"]).fs.isDir (segsOf "x") = true :=
  ⟨by decide, by decide, by decide, by decide,
    run_creates_base FS.empty "x" ["a"] (by decide) (by decide) (by decide)
      (by decide)⟩

end SetupStructure
